import Mathlib

/-!
Shallow embedding of the go-composite-fs repository (package `cfs`,
file `composite_fs.go`, overlay revision).

A `Layer` models one underlying `fs.FS` provider: the required `Open`
capability plus the optional native capabilities (`fs.StatFS`,
`fs.ReadDirFS`, a `ReadFile` method, a `Sub` method), each modelled as an
`Option` of a function, matching Go's dynamic interface probing.
Errors are modelled by their classification only (`errors.Is(err,
fs.ErrNotExist)` distinguishes exactly two classes in this code base):
`FsErr.notExist` vs `FsErr.generic`.  `path.Clean` is a standard-library
primitive declared out of scope by the spec (§1); every composite
operation applies it once to its argument before iterating, so all
definitions and theorems below are stated over the already-cleaned name.
-/

namespace CompositeFs

/-- Error classification: `notExist` models any error `e` with
`errors.Is(e, fs.ErrNotExist)`; `generic` models every other error. -/
inductive FsErr where
  | notExist
  | generic
  deriving DecidableEq

/-- Result of a fallible Go call: `.ok` a value or `.error` a classified error. -/
abbrev Res (α : Type) := Except FsErr α

instance {ε α : Type} [DecidableEq ε] [DecidableEq α] : DecidableEq (Except ε α) := by
  intro a b
  cases a <;> cases b
  case error.error e f =>
    exact if h : e = f then .isTrue (by rw [h]) else .isFalse (fun he => by cases he; exact h rfl)
  case error.ok e x => exact .isFalse (fun h => by cases h)
  case ok.error x e => exact .isFalse (fun h => by cases h)
  case ok.ok x y =>
    exact if h : x = y then .isTrue (by rw [h]) else .isFalse (fun he => by cases he; exact h rfl)

/-- Model of `fs.FileInfo`: the fields the code inspects (`Name`, `IsDir`),
plus an opaque `tag` so distinct infos from distinct layers are distinguishable. -/
structure FInfo where
  name : String
  isDir : Bool
  tag : Nat
  deriving DecidableEq

/-- Model of `fs.DirEntry`: merging keys on `Name()` alone; `tag` is an opaque
identifier distinguishing same-named entries contributed by different layers. -/
structure DEntry where
  name : String
  tag : Nat
  deriving DecidableEq

/-- Model of an `fs.File` handle returned by a layer's `Open`:
`statF` is the result of `file.Stat()`, `readAllF` the result of
`io.ReadAll(file)` (bytes as `List Nat`), and `readDirF` is `some r` iff the
handle implements `fs.ReadDirFile`, in which case `r` is its `ReadDir(-1)`. -/
structure File where
  statF : Res FInfo
  readAllF : Res (List Nat)
  readDirF : Option (Res (List DEntry))
  deriving DecidableEq

mutual
/-- Result of a layer's native `Sub(dir)` call: a re-rooted layer or a
classified error (a specialised copy of `Res Layer`, needed because `Layer`
is recursive through the Sub capability). -/
inductive SubRes : Type where
  | ok : Layer → SubRes
  | err : FsErr → SubRes

/-- The optional `Sub(dir string) (fs.FS, error)` capability of a provider
(a specialised copy of `Option (String → SubRes)`). -/
inductive SubCap : Type where
  | none : SubCap
  | some : (String → SubRes) → SubCap

/-- Model of an `fs.FS` provider (one layer): required `Open`, and the four
optional capabilities probed by Go type assertions in the source
(`fs.StatFS`, `fs.ReadDirFS`, `ReadFile(string) ([]byte, error)`,
`Sub(string) (fs.FS, error)`). -/
inductive Layer : Type where
  | mk : (String → Res File) → Option (String → Res FInfo) →
      Option (String → Res (List DEntry)) → Option (String → Res (List Nat)) →
      SubCap → Layer
end

def SubRes.toRes : SubRes → Res Layer
  | .ok l => .ok l
  | .err e => .error e

def Layer.openF : Layer → String → Res File
  | .mk o _ _ _ _ => o

def Layer.statFS : Layer → Option (String → Res FInfo)
  | .mk _ s _ _ _ => s

def Layer.readDirFS : Layer → Option (String → Res (List DEntry))
  | .mk _ _ r _ _ => r

def Layer.readFileFS : Layer → Option (String → Res (List Nat))
  | .mk _ _ _ r _ => r

/-- The Sub capability, viewed as Go sees it: `none` when the provider does
not implement `Sub`, else the call returning a re-rooted layer or an error. -/
def Layer.subFS : Layer → Option (String → Res Layer)
  | .mk _ _ _ _ .none => Option.none
  | .mk _ _ _ _ (.some f) => Option.some (fun s => (f s).toRes)

/-- The composite filesystem: ordered layer list plus the two policy flags,
exactly the fields of Go's `CompositeFS` struct. -/
structure CompositeFS where
  filesystems : List Layer
  bestEffort : Bool
  mergeDirs : Bool

/-- `newCompositeFS`: the internal constructor (the defensive slice copy is
modelled separately, heap-explicitly, by `newCompositeFSAlloc` below). -/
def newCompositeFS (bestEffort mergeDirs : Bool) (filesystems : List Layer) : CompositeFS :=
  { filesystems := filesystems, bestEffort := bestEffort, mergeDirs := mergeDirs }

/-- `NewCompositeFS`: strict (short-circuit) tolerance, first-wins directory mode. -/
def NewCompositeFS (filesystems : List Layer) : CompositeFS :=
  newCompositeFS false false filesystems

/-- `NewCompositeFSBestEffort`: best-effort tolerance, first-wins directory mode. -/
def NewCompositeFSBestEffort (filesystems : List Layer) : CompositeFS :=
  newCompositeFS true false filesystems

/-- `NewOverlayFS`: strict tolerance, overlay-merge directory mode. -/
def NewOverlayFS (filesystems : List Layer) : CompositeFS :=
  newCompositeFS false true filesystems

/-- Per-layer outcome of `Stat`: the native `fs.StatFS` capability when
present, else the `Open`+`file.Stat()` fallback (source lines 243-298). -/
def statLayer (l : Layer) (name : String) : Res FInfo :=
  match l.statFS with
  | some st => st name
  | none =>
    match l.openF name with
    | .ok f => f.statF
    | .error e => .error e

/-- Per-layer outcome of `ReadFile`: the native `ReadFile` capability when
present, else the `Open`+`io.ReadAll` fallback (source lines 354-412). -/
def readFileLayer (l : Layer) (name : String) : Res (List Nat) :=
  match l.readFileFS with
  | some rf => rf name
  | none =>
    match l.openF name with
    | .ok f => f.readAllF
    | .error e => .error e

/-- The package-level `ReadDir(fsys, name)` helper: native `fs.ReadDirFS` when
present, else `Open` the path and call `ReadDir(-1)` if the handle is an
`fs.ReadDirFile`, else a `fs.PathError` wrapping `fs.ErrInvalid`
(a generic-class error). -/
def readDirLayer (l : Layer) (name : String) : Res (List DEntry) :=
  match l.readDirFS with
  | some rd => rd name
  | none =>
    match l.openF name with
    | .error e => .error e
    | .ok f =>
      match f.readDirF with
      | some r => r
      | none => .error .generic

/-- The shared first-wins iteration template of `Open`, `Stat` and `ReadFile`:
try each layer's outcome in order; return the first success; a not-found
failure continues; a generic failure aborts unless best-effort; on exhaustion
return `notFoundError`'s classification (`notExist` iff `allNotExist`). -/
def resolveFirstAux {α : Type} (be : Bool) (f : Layer → Res α) :
    List Layer → Bool → Res α
  | [], allNE => .error (if allNE then .notExist else .generic)
  | l :: ls, allNE =>
    match f l with
    | .ok a => .ok a
    | .error .notExist => resolveFirstAux be f ls allNE
    | .error .generic => if be then resolveFirstAux be f ls false else .error .generic

/-- Top-level first-wins resolution: `allNotExist` starts `true`. -/
def resolveFirst {α : Type} (be : Bool) (f : Layer → Res α) (ls : List Layer) : Res α :=
  resolveFirstAux be f ls true

/-- Ghost observer of the first-wins loop: the per-layer outcomes of the
layers actually consulted, in order (consultation stops at the first success,
or at the first generic failure in short-circuit mode). -/
def consultedAux {α : Type} (be : Bool) (f : Layer → Res α) : List Layer → List (Res α)
  | [] => []
  | l :: ls =>
    match f l with
    | .ok a => [.ok a]
    | .error .notExist => .error .notExist :: consultedAux be f ls
    | .error .generic =>
      if be then .error .generic :: consultedAux be f ls else [.error .generic]

/-- `CompositeFS.Stat`. -/
def CompositeFS.Stat (cfs : CompositeFS) (name : String) : Res FInfo :=
  resolveFirst cfs.bestEffort (fun l => statLayer l name) cfs.filesystems

/-- `CompositeFS.ReadFile`. -/
def CompositeFS.ReadFile (cfs : CompositeFS) (name : String) : Res (List Nat) :=
  resolveFirst cfs.bestEffort (fun l => readFileLayer l name) cfs.filesystems

/-- `seen[entry.Name()]` membership test of the merge loops. -/
def hasName (es : List DEntry) (n : String) : Bool :=
  es.any (fun e => e.name = n)

/-- One step of the first-contributor-wins merge: append the entry unless an
entry of the same name was already accumulated. -/
def addEntry (acc : List DEntry) (e : DEntry) : List DEntry :=
  if hasName acc e.name then acc else acc ++ [e]

/-- Merge a layer's entry list into the accumulator, preserving discovery
order and discarding later same-name duplicates. -/
def addEntries (acc : List DEntry) (es : List DEntry) : List DEntry :=
  es.foldl addEntry acc

/-- What `Open` can return: a file handle passed through from a layer, or the
synthetic `overlayDirFile` built by overlay-merge mode (its `name`, captured
representative `info`, and merged entry list). -/
inductive OpenResult where
  | file : File → OpenResult
  | overlayDir : String → Option FInfo → List DEntry → OpenResult
  deriving DecidableEq

/-- The per-layer case analysis of the openOverlay loop body: `Open` then
`Stat` the handle; a stat or open failure is handled by one identical
error path in the source, so both collapse to `.err`; a directory probe also
carries the result of the subsequent `ReadDir(fsys, name)` call. -/
inductive Probe where
  | file : File → Probe
  | dir : FInfo → Res (List DEntry) → Probe
  | err : FsErr → Probe

/-- Classify what overlay-merge `Open` observes at one layer. -/
def overlayProbe (l : Layer) (name : String) : Probe :=
  match l.openF name with
  | .error e => .err e
  | .ok f =>
    match f.statF with
    | .error e => .err e
    | .ok info =>
      if info.isDir then .dir info (readDirLayer l name) else .file f

/-- The `openOverlay` iteration (source lines 82-184), with its loop state
made explicit: `allNE` (`allNotExist`), `foundDir`, `dirInfo` (first
directory's metadata), `entries` (merged, name-deduplicated, discovery
order), `foundRead` (`foundAnyDirRead`). -/
def openOverlayAux (be : Bool) (name : String) :
    List Layer → Bool → Bool → Option FInfo → List DEntry → Bool → Res OpenResult
  | [], allNE, _, dirInfo, entries, foundRead =>
    if foundRead then .ok (.overlayDir name dirInfo entries)
    else
      -- the source distinguishes "directory"/"file" wording via foundDir;
      -- the classification is allNE in both branches
      .error (if allNE then .notExist else .generic)
  | l :: ls, allNE, foundDir, dirInfo, entries, foundRead =>
    match overlayProbe l name with
    | .err .notExist => openOverlayAux be name ls allNE foundDir dirInfo entries foundRead
    | .err .generic =>
      if be then openOverlayAux be name ls false foundDir dirInfo entries foundRead
      else .error .generic
    | .file f =>
      if foundDir then openOverlayAux be name ls false foundDir dirInfo entries foundRead
      else .ok (.file f)
    | .dir info rd =>
      let dirInfo' := match dirInfo with
        | Option.some di => Option.some di
        | Option.none => Option.some info
      match rd with
      | .ok es => openOverlayAux be name ls false true dirInfo' (addEntries entries es) true
      | .error .notExist => openOverlayAux be name ls allNE true dirInfo' entries foundRead
      | .error .generic =>
        if be then openOverlayAux be name ls false true dirInfo' entries foundRead
        else .error .generic

/-- `CompositeFS.openOverlay`. -/
def CompositeFS.openOverlay (cfs : CompositeFS) (name : String) : Res OpenResult :=
  openOverlayAux cfs.bestEffort name cfs.filesystems true false Option.none [] false

/-- `CompositeFS.Open`: overlay merge when `mergeDirs`, else the first-wins
template over each layer's `Open`. -/
def CompositeFS.Open (cfs : CompositeFS) (name : String) : Res OpenResult :=
  if cfs.mergeDirs then cfs.openOverlay name
  else (resolveFirst cfs.bestEffort (fun l => l.openF name) cfs.filesystems).map OpenResult.file

/-- The `CompositeFS.ReadDir` iteration (source lines 196-221): merge entries
from every layer that lists the directory, first contributor winning on a
name collision; loop state `acc` / `foundAny` / `allNE` explicit. -/
def readDirAux (be : Bool) (name : String) :
    List Layer → List DEntry → Bool → Bool → Res (List DEntry)
  | [], acc, foundAny, allNE =>
    if foundAny then .ok acc else .error (if allNE then .notExist else .generic)
  | l :: ls, acc, foundAny, allNE =>
    match readDirLayer l name with
    | .ok es => readDirAux be name ls (addEntries acc es) true false
    | .error .notExist => readDirAux be name ls acc foundAny allNE
    | .error .generic =>
      if be then readDirAux be name ls acc foundAny false else .error .generic

/-- The deduplicated entry set accumulated by `ReadDir`, in map-insertion
order (the contents of the Go `allEntries` map). -/
def readDirCore (cfs : CompositeFS) (name : String) : Res (List DEntry) :=
  readDirAux cfs.bestEffort name cfs.filesystems [] false true

/-- `CompositeFS.ReadDir`.  The Go source materialises the result by ranging
over the `allEntries` map, whose iteration order the Go runtime randomises;
`order` models that iteration order as an oracle.  An admissible oracle
returns a permutation of the accumulated entries (hypothesis `order l ~ l`
in the theorems below); the Go runtime guarantees nothing more. -/
def CompositeFS.ReadDir (cfs : CompositeFS) (order : List DEntry → List DEntry)
    (name : String) : Res (List DEntry) :=
  (readDirCore cfs name).map order

/-- Ghost observer: how many layers the `ReadDir` loop consults. -/
def readDirConsulted (be : Bool) (name : String) : List Layer → Nat
  | [] => 0
  | l :: ls =>
    match readDirLayer l name with
    | .ok _ => 1 + readDirConsulted be name ls
    | .error .notExist => 1 + readDirConsulted be name ls
    | .error .generic => if be then 1 + readDirConsulted be name ls else 1

/-- The `CompositeFS.Sub` iteration (source lines 313-337): layers without
the Sub capability are skipped silently; a successful re-root is appended;
failures follow the shared tolerance rules. -/
def subAux (be : Bool) (dir : String) : List Layer → List Layer → Bool → Res (List Layer)
  | [], acc, allNE =>
    if acc.isEmpty then .error (if allNE then .notExist else .generic) else .ok acc
  | l :: ls, acc, allNE =>
    match l.subFS with
    | Option.none => subAux be dir ls acc allNE
    | Option.some s =>
      match s dir with
      | .ok sl => subAux be dir ls (acc ++ [sl]) false
      | .error .notExist => subAux be dir ls acc allNE
      | .error .generic => if be then subAux be dir ls acc false else .error .generic

/-- `CompositeFS.Sub`: builds a new composite over the re-rooted layers,
with the original's policy flags (`newCompositeFS(cfs.bestEffort,
cfs.mergeDirs, subFSList...)`); the original composite is untouched (the
embedding is pure, matching the source, which only reads `cfs`). -/
def CompositeFS.Sub (cfs : CompositeFS) (dir : String) : Res CompositeFS :=
  (subAux cfs.bestEffort dir cfs.filesystems [] true).map
    (fun sl => newCompositeFS cfs.bestEffort cfs.mergeDirs sl)

/-- The re-rooted sub-filesystems of the layers that support re-rooting and
succeed at `dir`, in layer order. -/
def subSuccesses (dir : String) (ls : List Layer) : List Layer :=
  ls.filterMap (fun l =>
    match l.subFS with
    | Option.none => Option.none
    | Option.some s =>
      match s dir with
      | .ok sl => Option.some sl
      | .error _ => Option.none)

/-- The synthetic overlay directory handle (`overlayDirFile`):
path, optional representative info, merged entries, and the read cursor. -/
structure OverlayDirFile where
  name : String
  info : Option FInfo
  entries : List DEntry
  pos : Nat

/-- `overlayDirFile.ReadDir(n)` (source lines 482-506): returns the entries
read, whether `io.EOF` was returned, and the handle with its advanced
cursor.  `n <= 0` drains the remainder without error; `n > 0` returns at
most `n` entries, attaching `io.EOF` when the cursor reaches the end. -/
def OverlayDirFile.readDirN (f : OverlayDirFile) (n : Int) :
    (List DEntry × Bool) × OverlayDirFile :=
  if n ≤ 0 then
    if f.entries.length ≤ f.pos then (([], false), f)
    else ((f.entries.drop f.pos, false), { f with pos := f.entries.length })
  else
    if f.entries.length ≤ f.pos then (([], true), f)
    else
      (((f.entries.drop f.pos).take (min (f.pos + n.toNat) f.entries.length - f.pos),
          decide (f.entries.length ≤ min (f.pos + n.toNat) f.entries.length)),
        { f with pos := min (f.pos + n.toNat) f.entries.length })

/-- A Go slice header over the explicit heap below: array identifier and
length (all slices in the modelled code have offset 0). -/
structure GoSlice where
  arr : Nat
  len : Nat
  deriving DecidableEq

/-- An explicit heap of backing arrays for `[]fs.FS` slices, to model Go's
aliasing: `make` allocates a fresh array, `copy` copies values. -/
structure GoHeap where
  arrays : List (List Layer)

/-- Read all elements of a slice from the heap. -/
def GoHeap.readSlice (h : GoHeap) (s : GoSlice) : List Layer :=
  (h.arrays.getD s.arr []).take s.len

/-- `make([]fs.FS, n)` followed by filling in values: allocates a fresh
backing array, returning the new heap and a slice header over it. -/
def GoHeap.alloc (h : GoHeap) (vals : List Layer) : GoHeap × GoSlice :=
  ({ arrays := h.arrays ++ [vals] }, ⟨h.arrays.length, vals.length⟩)

/-- `s[i] = v`: in-place mutation of one slice element. -/
def GoHeap.writeIdx (h : GoHeap) (s : GoSlice) (i : Nat) (v : Layer) : GoHeap :=
  { arrays := h.arrays.set s.arr ((h.arrays.getD s.arr []).set i v) }

/-- A composite whose layer list is a slice header into the explicit heap
(the view of `CompositeFS` needed to state the aliasing claim). -/
structure CompositeFSRef where
  filesystems : GoSlice
  bestEffort : Bool
  mergeDirs : Bool

/-- Heap-level `newCompositeFS`: `fsList := make([]fs.FS, len(filesystems));
copy(fsList, filesystems)` — read the caller's slice, allocate a fresh
backing array holding those values, and keep the fresh slice.  The three
public constructors are the instances `(be, md) ∈ {(false,false),
(true,false), (false,true)}`. -/
def newCompositeFSAlloc (be md : Bool) (h : GoHeap) (caller : GoSlice) :
    GoHeap × CompositeFSRef :=
  let p := h.alloc (h.readSlice caller)
  (p.1, ⟨p.2, be, md⟩)

/-- Materialise a heap-level composite into the value-level `CompositeFS`
on which all operations are defined. -/
def CompositeFSRef.deref (h : GoHeap) (c : CompositeFSRef) : CompositeFS :=
  ⟨h.readSlice c.filesystems, c.bestEffort, c.mergeDirs⟩

/-! Concrete layers and composites used by the witnesses. -/

/-- A file whose contents are the byte string `[65]` ("A"). -/
def fileA : File :=
  { statF := .ok ⟨"a", false, 0⟩, readAllF := .ok [65], readDirF := Option.none }

/-- A file whose contents are the byte string `[66]` ("B"). -/
def fileB : File :=
  { statF := .ok ⟨"b", false, 1⟩, readAllF := .ok [66], readDirF := Option.none }

/-- A layer for which every path is absent. -/
def layerNE : Layer :=
  .mk (fun _ => .error .notExist) Option.none Option.none Option.none .none

/-- A layer that fails with a generic error on every operation. -/
def layerGen : Layer :=
  .mk (fun _ => .error .generic) Option.none Option.none Option.none .none

/-- A layer whose every path opens as `fileA` (no optional capabilities). -/
def layerA : Layer :=
  .mk (fun _ => .ok fileA) Option.none Option.none Option.none .none

/-- A layer whose every path opens as `fileB` (no optional capabilities). -/
def layerB : Layer :=
  .mk (fun _ => .ok fileB) Option.none Option.none Option.none .none

/-- Strip a result to its success value, if any. -/
def resToOption {α : Type} : Res α → Option α
  | .ok a => Option.some a
  | .error _ => Option.none

/-- The entry lists of the layers whose `ReadDir(fsys, name)` succeeds, in
layer order: the inputs of the `ReadDir` merge. -/
def readDirSuccesses (name : String) (ls : List Layer) : List (List DEntry) :=
  ls.filterMap (fun l => resToOption (readDirLayer l name))

/-- The entry lists of the layers that overlay `Open` sees as directories
whose entries it successfully reads, in layer order: the inputs of the
overlay merge. -/
def overlayDirSuccesses (name : String) (ls : List Layer) : List (List DEntry) :=
  ls.filterMap (fun l =>
    match overlayProbe l name with
    | .dir _ (.ok es) => Option.some es
    | _ => Option.none)

/-- A directory entry "home" as contributed by layer 0. -/
def entHome0 : DEntry := ⟨"home", 0⟩

/-- A directory entry "home" as contributed by layer 1 (a distinct entry). -/
def entHome1 : DEntry := ⟨"home", 10⟩

/-- A directory entry "about", contributed only by layer 1. -/
def entAbout : DEntry := ⟨"about", 11⟩

/-- Metadata of layer 0's directory. -/
def dInfoViews0 : FInfo := ⟨"views", true, 5⟩

/-- Metadata of layer 1's directory. -/
def dInfoViews1 : FInfo := ⟨"views", true, 6⟩

/-- Layer 0's directory handle: stats as a directory, lists `[entHome0]`. -/
def dirFile0 : File :=
  { statF := .ok dInfoViews0, readAllF := .error .generic,
    readDirF := Option.some (.ok [entHome0]) }

/-- Layer 1's directory handle: stats as a directory, lists
`[entHome1, entAbout]`. -/
def dirFile1 : File :=
  { statF := .ok dInfoViews1, readAllF := .error .generic,
    readDirF := Option.some (.ok [entHome1, entAbout]) }

/-- A layer whose every path is the directory `dirFile0` (native ReadDirFS). -/
def layerDir0 : Layer :=
  .mk (fun _ => .ok dirFile0) Option.none (Option.some (fun _ => .ok [entHome0]))
    Option.none .none

/-- A layer whose every path is the directory `dirFile1` (native ReadDirFS). -/
def layerDir1 : Layer :=
  .mk (fun _ => .ok dirFile1) Option.none
    (Option.some (fun _ => .ok [entHome1, entAbout])) Option.none .none

/-- A layer whose native Sub capability always succeeds, re-rooting to `layerA`. -/
def layerSubOk : Layer :=
  .mk (fun _ => .error .notExist) Option.none Option.none Option.none
    (.some (fun _ => .ok layerA))

/-- A layer whose native Sub capability always fails with a generic error. -/
def layerSubGen : Layer :=
  .mk (fun _ => .error .notExist) Option.none Option.none Option.none
    (.some (fun _ => .err .generic))

/-- A concrete synthetic overlay directory handle with three entries and the
cursor at the start. -/
def odf9 : OverlayDirFile :=
  { name := "d", info := Option.none, entries := [entHome0, entHome1, entAbout], pos := 0 }

/-- A concrete heap holding one backing array of two layers. -/
def heap0 : GoHeap := { arrays := [[layerA, layerB]] }

/-- The caller's slice over `heap0`'s only array. -/
def callerSlice : GoSlice := { arr := 0, len := 2 }

/-! ### Generic lemmas about the shared first-wins template -/

theorem except_map_ok_iff {α β : Type} (g : α → β) (r : Res α) (b : β) :
    r.map g = .ok b ↔ ∃ a, r = .ok a ∧ g a = b := by
  cases r <;> simp [Except.map]

theorem except_map_err_iff {α β : Type} (g : α → β) (r : Res α) (e : FsErr) :
    r.map g = .error e ↔ r = .error e := by
  cases r <;> simp [Except.map]

theorem resolveAux_err_notExist_iff {α : Type} (be : Bool) (f : Layer → Res α)
    (ls : List Layer) (allNE : Bool) :
    resolveFirstAux be f ls allNE = .error .notExist ↔
      (allNE = true ∧ ∀ l ∈ ls, f l = .error .notExist) := by
  induction ls generalizing allNE with
  | nil => cases allNE <;> simp [resolveFirstAux]
  | cons l ls ih =>
    simp only [resolveFirstAux]
    cases hf : f l with
    | ok a => simp [hf, List.forall_mem_cons]
    | error e =>
      cases e with
      | notExist => simp [ih, hf, List.forall_mem_cons]
      | generic =>
        cases be with
        | false => simp [hf, List.forall_mem_cons]
        | true => simp [ih, hf, List.forall_mem_cons]

theorem resolveAux_ok_prefix {α : Type} (be : Bool) (f : Layer → Res α) (pre : List Layer)
    (l : Layer) (post : List Layer) (v : α) (allNE : Bool)
    (hpre : ∀ p ∈ pre, f p = .error .notExist) (hl : f l = .ok v) :
    resolveFirstAux be f (pre ++ l :: post) allNE = .ok v := by
  induction pre generalizing allNE with
  | nil =>
    simp only [List.nil_append, resolveFirstAux]
    rw [hl]
  | cons p ps ih =>
    have hp : f p = .error .notExist := hpre p (List.mem_cons_self p ps)
    simp only [List.cons_append, resolveFirstAux]
    rw [hp]
    exact ih allNE (fun q hq => hpre q (List.mem_cons_of_mem p hq))

theorem resolveAux_ok_inv {α : Type} (be : Bool) (f : Layer → Res α) (ls : List Layer)
    (allNE : Bool) (v : α) (h : resolveFirstAux be f ls allNE = .ok v) :
    ∃ pre l post, ls = pre ++ l :: post ∧ f l = .ok v ∧
      ∀ p ∈ pre, ¬ ∃ w, f p = .ok w := by
  induction ls generalizing allNE with
  | nil => cases allNE <;> simp [resolveFirstAux] at h
  | cons l ls ih =>
    simp only [resolveFirstAux] at h
    cases hf : f l with
    | ok a =>
      rw [hf] at h
      refine ⟨[], l, ls, rfl, ?_, by simp⟩
      cases h
      exact hf
    | error e =>
      rw [hf] at h
      cases e with
      | notExist =>
        obtain ⟨pre, l', post, hsplit, hl', hpre⟩ := ih allNE h
        refine ⟨l :: pre, l', post, by rw [hsplit]; rfl, hl', ?_⟩
        intro p hp
        rcases List.mem_cons.mp hp with hh | hh
        · subst hh
          rintro ⟨w, hw⟩
          rw [hf] at hw
          cases hw
        · exact hpre p hh
      | generic =>
        cases be with
        | false => simp at h
        | true =>
          simp only [if_pos rfl] at h
          obtain ⟨pre, l', post, hsplit, hl', hpre⟩ := ih false h
          refine ⟨l :: pre, l', post, by rw [hsplit]; rfl, hl', ?_⟩
          intro p hp
          rcases List.mem_cons.mp hp with hh | hh
          · subst hh
            rintro ⟨w, hw⟩
            rw [hf] at hw
            cases hw
          · exact hpre p hh

theorem consulted_allNotExist_iff {α : Type} (be : Bool) (f : Layer → Res α) (ls : List Layer) :
    (∀ r ∈ consultedAux be f ls, r = .error .notExist) ↔
      (∀ l ∈ ls, f l = .error .notExist) := by
  induction ls with
  | nil => simp [consultedAux]
  | cons l ls ih =>
    simp only [consultedAux]
    cases hf : f l with
    | ok a => simp [hf]
    | error e =>
      cases e with
      | notExist => simp [hf, ih]
      | generic =>
        cases be with
        | false => simp [hf]
        | true => simp [hf]

theorem resolveAux_err_elim {α : Type} (be : Bool) (f : Layer → Res α) (ls : List Layer)
    (allNE : Bool) (e : FsErr) (h : resolveFirstAux be f ls allNE = .error e) :
    e = .notExist ∨ e = .generic := by
  cases e
  · exact Or.inl rfl
  · exact Or.inr rfl

/-- Combined classification fact for the shared template: on failure, the
error is not-found-class iff every consulted layer's outcome was
not-found-class. -/
theorem resolve_err_class {α : Type} (be : Bool) (f : Layer → Res α) (ls : List Layer)
    (e : FsErr) (h : resolveFirst be f ls = .error e) :
    e = .notExist ↔ ∀ r ∈ consultedAux be f ls, r = .error .notExist := by
  rw [consulted_allNotExist_iff]
  constructor
  · intro he
    subst he
    exact ((resolveAux_err_notExist_iff be f ls true).mp h).2
  · intro hall
    have : resolveFirstAux be f ls true = .error .notExist :=
      (resolveAux_err_notExist_iff be f ls true).mpr ⟨rfl, hall⟩
    rw [resolveFirst] at h
    rw [this] at h
    cases h
    rfl

theorem resolve_ok_no_notExist_err {α : Type} (be : Bool) (f : Layer → Res α) (ls : List Layer)
    (hex : ∃ l ∈ ls, ∃ v, f l = .ok v) :
    resolveFirst be f ls ≠ .error .notExist := by
  intro h
  obtain ⟨l, hl, v, hv⟩ := hex
  have := ((resolveAux_err_notExist_iff be f ls true).mp h).2 l hl
  rw [hv] at this
  cases this

/-! ### Claim C1 -/

/-- C1: in first-wins mode (`mergeDirs = false`), `Open`, `Stat` and
`ReadFile` return the handle / metadata / contents produced by the
lowest-index layer whose per-operation probe succeeds at the path, and never
a result from a later layer: (forward) if every layer before one whose probe
succeeds fails not-found, the operation returns exactly that layer's result;
(backward) any successful result is the probe result of some layer all of
whose predecessors' probes failed. -/
theorem spec_C1_first_wins_lowest_index (cfs : CompositeFS) (name : String)
    (hmd : cfs.mergeDirs = false) :
    (∀ pre l post v, cfs.filesystems = pre ++ l :: post →
        (∀ p ∈ pre, p.openF name = .error .notExist) → l.openF name = .ok v →
        cfs.Open name = .ok (.file v)) ∧
    (∀ v, cfs.Open name = .ok (.file v) →
        ∃ pre l post, cfs.filesystems = pre ++ l :: post ∧ l.openF name = .ok v ∧
          ∀ p ∈ pre, ¬ ∃ w, p.openF name = .ok w) ∧
    (∀ pre l post v, cfs.filesystems = pre ++ l :: post →
        (∀ p ∈ pre, statLayer p name = .error .notExist) → statLayer l name = .ok v →
        cfs.Stat name = .ok v) ∧
    (∀ v, cfs.Stat name = .ok v →
        ∃ pre l post, cfs.filesystems = pre ++ l :: post ∧ statLayer l name = .ok v ∧
          ∀ p ∈ pre, ¬ ∃ w, statLayer p name = .ok w) ∧
    (∀ pre l post v, cfs.filesystems = pre ++ l :: post →
        (∀ p ∈ pre, readFileLayer p name = .error .notExist) → readFileLayer l name = .ok v →
        cfs.ReadFile name = .ok v) ∧
    (∀ v, cfs.ReadFile name = .ok v →
        ∃ pre l post, cfs.filesystems = pre ++ l :: post ∧ readFileLayer l name = .ok v ∧
          ∀ p ∈ pre, ¬ ∃ w, readFileLayer p name = .ok w) := by
  refine ⟨?_, ?_, ?_, ?_, ?_, ?_⟩
  · intro pre l post v hsplit hpre hl
    rw [CompositeFS.Open, hmd]
    simp only [Bool.false_eq_true, if_false]
    rw [resolveFirst, hsplit, resolveAux_ok_prefix cfs.bestEffort _ pre l post v true hpre hl]
    rfl
  · intro v h
    rw [CompositeFS.Open, hmd] at h
    simp only [Bool.false_eq_true, if_false] at h
    rw [except_map_ok_iff] at h
    obtain ⟨a, ha, hfa⟩ := h
    cases hfa
    exact resolveAux_ok_inv _ _ _ _ _ ha
  · intro pre l post v hsplit hpre hl
    rw [CompositeFS.Stat, resolveFirst, hsplit,
      resolveAux_ok_prefix cfs.bestEffort _ pre l post v true hpre hl]
  · intro v h
    exact resolveAux_ok_inv _ _ _ _ _ h
  · intro pre l post v hsplit hpre hl
    rw [CompositeFS.ReadFile, resolveFirst, hsplit,
      resolveAux_ok_prefix cfs.bestEffort _ pre l post v true hpre hl]
  · intro v h
    exact resolveAux_ok_inv _ _ _ _ _ h

/-- C1 witness: on the strict first-wins composite `[layerNE, layerA, layerB]`
(the path "absent" from layer 0, present in layers 1 and 2), `Open`, `Stat`
and `ReadFile` all return layer 1's result. -/
theorem spec_C1_first_wins_lowest_index_witness :
    (NewCompositeFS [layerNE, layerA, layerB]).Open "f" = .ok (.file fileA) ∧
    (NewCompositeFS [layerNE, layerA, layerB]).Stat "f" = .ok ⟨"a", false, 0⟩ ∧
    (NewCompositeFS [layerNE, layerA, layerB]).ReadFile "f" = .ok [65] := by
  have h := spec_C1_first_wins_lowest_index (NewCompositeFS [layerNE, layerA, layerB]) "f" rfl
  refine ⟨?_, ?_, ?_⟩
  · exact h.1 [layerNE] layerA [layerB] fileA rfl
      (by intro p hp; rw [List.mem_singleton] at hp; subst hp; rfl) rfl
  · exact h.2.2.1 [layerNE] layerA [layerB] ⟨"a", false, 0⟩ rfl
      (by intro p hp; rw [List.mem_singleton] at hp; subst hp; rfl) rfl
  · exact h.2.2.2.2.1 [layerNE] layerA [layerB] [65] rfl
      (by intro p hp; rw [List.mem_singleton] at hp; subst hp; rfl) rfl

/-! ### Claim C2 -/

theorem readDirAux_err_notExist_iff (be : Bool) (name : String) (ls : List Layer)
    (acc : List DEntry) (foundAny allNE : Bool) :
    readDirAux be name ls acc foundAny allNE = .error .notExist ↔
      (foundAny = false ∧ allNE = true ∧
        ∀ l ∈ ls, readDirLayer l name = .error .notExist) := by
  induction ls generalizing acc foundAny allNE with
  | nil =>
    cases foundAny <;> cases allNE <;> simp [readDirAux]
  | cons l ls ih =>
    simp only [readDirAux]
    cases hf : readDirLayer l name with
    | ok es => simp [ih, hf, List.forall_mem_cons]
    | error e =>
      cases e with
      | notExist => simp [ih, hf, List.forall_mem_cons]
      | generic =>
        cases be with
        | false => simp [hf, List.forall_mem_cons]
        | true => simp [ih, hf, List.forall_mem_cons]

/-- C2: a failed operation is classified not-found iff every consulted layer
produced a not-found-class failure (for `Open`, `Stat`, `ReadFile` relative
to each operation's per-layer probe, and for `ReadDir` over all layers — its
loop never stops at a success); a generic failure among the consulted layers
forces a generic classification; an empty layer list yields a not-found
classification; and when some layer's probe succeeds, a failure is never
classified not-found. -/
theorem spec_C2_error_classification (cfs : CompositeFS) (name : String)
    (hmd : cfs.mergeDirs = false) :
    (∀ e, cfs.Open name = .error e →
        (e = .notExist ↔
          ∀ r ∈ consultedAux cfs.bestEffort (fun l => l.openF name) cfs.filesystems,
            r = .error .notExist)) ∧
    (∀ e, cfs.Stat name = .error e →
        (e = .notExist ↔
          ∀ r ∈ consultedAux cfs.bestEffort (fun l => statLayer l name) cfs.filesystems,
            r = .error .notExist)) ∧
    (∀ e, cfs.ReadFile name = .error e →
        (e = .notExist ↔
          ∀ r ∈ consultedAux cfs.bestEffort (fun l => readFileLayer l name) cfs.filesystems,
            r = .error .notExist)) ∧
    (∀ e, cfs.Open name = .error e →
        .error .generic ∈ consultedAux cfs.bestEffort (fun l => l.openF name) cfs.filesystems →
        e = .generic) ∧
    (cfs.filesystems = [] → cfs.Open name = .error .notExist) ∧
    ((∃ l ∈ cfs.filesystems, ∃ f, l.openF name = .ok f) →
        cfs.Open name ≠ .error .notExist) ∧
    ((∃ l ∈ cfs.filesystems, ∃ i, statLayer l name = .ok i) →
        cfs.Stat name ≠ .error .notExist) ∧
    ((∃ l ∈ cfs.filesystems, ∃ d, readFileLayer l name = .ok d) →
        cfs.ReadFile name ≠ .error .notExist) ∧
    (∀ e, readDirCore cfs name = .error e →
        (e = .notExist ↔ ∀ l ∈ cfs.filesystems, readDirLayer l name = .error .notExist)) := by
  have hopen : cfs.Open name =
      (resolveFirst cfs.bestEffort (fun l => l.openF name) cfs.filesystems).map OpenResult.file := by
    rw [CompositeFS.Open, hmd]
    simp
  refine ⟨?_, ?_, ?_, ?_, ?_, ?_, ?_, ?_, ?_⟩
  · intro e h
    rw [hopen, except_map_err_iff] at h
    exact resolve_err_class _ _ _ _ h
  · intro e h
    exact resolve_err_class _ _ _ _ h
  · intro e h
    exact resolve_err_class _ _ _ _ h
  · intro e h hmem
    rw [hopen, except_map_err_iff] at h
    cases e with
    | generic => rfl
    | notExist =>
      have := ((resolve_err_class _ _ _ _ h).mp rfl) _ hmem
      cases this
  · intro hfs
    rw [hopen, hfs]
    rfl
  · intro hex h
    rw [hopen, except_map_err_iff] at h
    exact resolve_ok_no_notExist_err _ _ _ hex h
  · intro hex h
    exact resolve_ok_no_notExist_err _ _ _ hex h
  · intro hex h
    exact resolve_ok_no_notExist_err _ _ _ hex h
  · intro e h
    constructor
    · intro he
      subst he
      exact ((readDirAux_err_notExist_iff _ _ _ _ _ _).mp h).2.2
    · intro hall
      have : readDirAux cfs.bestEffort name cfs.filesystems [] false true = .error .notExist :=
        (readDirAux_err_notExist_iff _ _ _ _ _ _).mpr ⟨rfl, rfl, hall⟩
      rw [readDirCore] at h
      rw [this] at h
      cases h
      rfl

/-- C2 witness: on the strict composite `[layerNE, layerGen]` the `Open`
failure is generic (the iff instantiated at the actual error), the empty
composite fails not-found, and with `layerA` present a failure is never
not-found. -/
theorem spec_C2_error_classification_witness :
    ((FsErr.generic = FsErr.notExist) ↔
      ∀ r ∈ consultedAux false (fun l => l.openF "f") [layerNE, layerGen],
        r = .error .notExist) ∧
    (NewCompositeFS []).Open "f" = .error .notExist ∧
    (NewCompositeFS [layerGen, layerA]).Open "f" ≠ .error .notExist := by
  refine ⟨?_, ?_, ?_⟩
  · exact (spec_C2_error_classification (NewCompositeFS [layerNE, layerGen]) "f" rfl).1
      .generic (by decide)
  · exact (spec_C2_error_classification (NewCompositeFS []) "f" rfl).2.2.2.2.1 rfl
  · exact (spec_C2_error_classification (NewCompositeFS [layerGen, layerA]) "f" rfl).2.2.2.2.2.1
      ⟨layerA, List.mem_cons_of_mem _ (List.mem_cons_self _ _), fileA, rfl⟩

/-! ### Claim C3 -/

/-- C3: with a generic failure on layer 0, best-effort `Open` still returns
layer 1's success, while short-circuit `Open` returns the generic failure
having consulted only layer 0; and a not-found failure on a layer always
continues to the next layer under both tolerance settings. -/
theorem spec_C3_tolerance (l0 l1 : Layer) (rest : List Layer) (name : String)
    (hg : l0.openF name = .error .generic) :
    (∀ v, l1.openF name = .ok v →
      (NewCompositeFSBestEffort (l0 :: l1 :: rest)).Open name = .ok (.file v)) ∧
    ((NewCompositeFS (l0 :: l1 :: rest)).Open name = .error .generic ∧
      consultedAux false (fun l => l.openF name) (l0 :: l1 :: rest) = [.error .generic]) ∧
    (∀ (be allNE : Bool) (l : Layer) (ls : List Layer), l.openF name = .error .notExist →
      resolveFirstAux be (fun x => x.openF name) (l :: ls) allNE =
        resolveFirstAux be (fun x => x.openF name) ls allNE) := by
  refine ⟨?_, ⟨?_, ?_⟩, ?_⟩
  · intro v h1
    simp [NewCompositeFSBestEffort, newCompositeFS, CompositeFS.Open, resolveFirst,
      resolveFirstAux, hg, h1, Except.map]
  · simp [NewCompositeFS, newCompositeFS, CompositeFS.Open, resolveFirst,
      resolveFirstAux, hg, Except.map]
  · simp [consultedAux, hg]
  · intro be allNE l ls h
    simp [resolveFirstAux, h]

/-- C3 witness: layer 0 generic, layer 1 has the file — best-effort returns
layer 1's file; strict fails generic with exactly one layer consulted. -/
theorem spec_C3_tolerance_witness :
    (NewCompositeFSBestEffort [layerGen, layerA]).Open "f" = .ok (.file fileA) ∧
    (NewCompositeFS [layerGen, layerA]).Open "f" = .error .generic ∧
    consultedAux false (fun l => l.openF "f") [layerGen, layerA] = [.error .generic] := by
  have h := spec_C3_tolerance layerGen layerA [] "f" rfl
  exact ⟨h.1 fileA rfl, h.2.1⟩

/-! ### The first-contributor-wins merge -/

theorem hasName_iff (es : List DEntry) (n : String) :
    hasName es n = true ↔ ∃ e ∈ es, e.name = n := by
  simp [hasName]

theorem hasName_addEntry_bool (acc : List DEntry) (x : DEntry) (n : String) :
    hasName (addEntry acc x) n = (hasName acc n || decide (x.name = n)) := by
  rw [addEntry]
  by_cases hx : hasName acc x.name
  · rw [if_pos hx]
    by_cases hn : x.name = n
    · subst hn
      simp [hx]
    · simp [hn]
  · rw [if_neg hx]
    simp [hasName, List.any_append]

theorem hasName_addEntries_bool (xs : List DEntry) (acc : List DEntry) (n : String) :
    hasName (addEntries acc xs) n = (hasName acc n || hasName xs n) := by
  induction xs generalizing acc with
  | nil => simp [addEntries, hasName]
  | cons x xs ih =>
    have hstep : addEntries acc (x :: xs) = addEntries (addEntry acc x) xs := rfl
    rw [hstep, ih, hasName_addEntry_bool]
    have hcons : hasName (x :: xs) n = (decide (x.name = n) || hasName xs n) := by
      simp [hasName, List.any_cons]
    rw [hcons, Bool.or_assoc]

theorem namesNodup_addEntry (acc : List DEntry) (x : DEntry)
    (h : (acc.map DEntry.name).Nodup) : ((addEntry acc x).map DEntry.name).Nodup := by
  rw [addEntry]
  by_cases hx : hasName acc x.name
  · rw [if_pos hx]
    exact h
  · rw [if_neg hx]
    rw [List.map_append]
    rw [List.nodup_append]
    refine ⟨h, by simp, ?_⟩
    intro a ha hb
    simp only [List.map_cons, List.map_nil, List.mem_singleton] at hb
    subst hb
    apply hx
    rw [hasName_iff]
    rw [List.mem_map] at ha
    obtain ⟨e, he, hen⟩ := ha
    exact ⟨e, he, hen⟩

theorem namesNodup_addEntries (xs : List DEntry) (acc : List DEntry)
    (h : (acc.map DEntry.name).Nodup) : ((addEntries acc xs).map DEntry.name).Nodup := by
  induction xs generalizing acc with
  | nil => exact h
  | cons x xs ih => exact ih _ (namesNodup_addEntry _ _ h)

theorem addEntries_mem_first (xs : List DEntry) (acc : List DEntry) (e : DEntry)
    (h : e ∈ addEntries acc xs) :
    e ∈ acc ∨ (hasName acc e.name = false ∧
      xs.find? (fun x => x.name == e.name) = some e) := by
  induction xs generalizing acc with
  | nil => exact Or.inl h
  | cons x xs ih =>
    have h' : e ∈ addEntries (addEntry acc x) xs := h
    rcases ih (addEntry acc x) h' with hmem | ⟨hno, hfind⟩
    · rw [addEntry] at hmem
      by_cases hx : hasName acc x.name
      · rw [if_pos hx] at hmem
        exact Or.inl hmem
      · rw [if_neg hx] at hmem
        rcases List.mem_append.mp hmem with hmem | hmem
        · exact Or.inl hmem
        · rw [List.mem_singleton] at hmem
          subst hmem
          refine Or.inr ⟨Bool.eq_false_iff.mpr hx, ?_⟩
          rw [List.find?_cons_of_pos _ (by simp)]
    · have h1 : hasName acc e.name = false := by
        rw [hasName_addEntry_bool] at hno
        exact (Bool.or_eq_false_iff.mp hno).1
      have h2 : ¬ x.name = e.name := by
        rw [hasName_addEntry_bool] at hno
        have := (Bool.or_eq_false_iff.mp hno).2
        simpa using this
      refine Or.inr ⟨h1, ?_⟩
      rw [List.find?_cons_of_neg _ (by simp [h2])]
      exact hfind

/-- The three C4 merge properties, for the canonical merged list built from
the per-layer entry lists `xss` (in layer order): the merged names are
exactly the union of per-layer names, each name occurs once, and each merged
entry is the first occurrence of its name across the concatenation of the
contributing lists in layer order. -/
theorem dedup_props (xss : List (List DEntry)) :
    (∀ n, (∃ e ∈ addEntries [] xss.flatten, e.name = n) ↔
        ∃ es ∈ xss, ∃ e ∈ es, e.name = n) ∧
    ((addEntries [] xss.flatten).map DEntry.name).Nodup ∧
    (∀ e ∈ addEntries [] xss.flatten,
      xss.flatten.find? (fun x => x.name == e.name) = some e) := by
  refine ⟨?_, ?_, ?_⟩
  · intro n
    rw [← hasName_iff, hasName_addEntries_bool]
    have : hasName ([] : List DEntry) n = false := rfl
    rw [this, Bool.false_or, hasName_iff]
    constructor
    · rintro ⟨e, he, hen⟩
      obtain ⟨es, hes, hees⟩ := List.mem_flatten.mp he
      exact ⟨es, hes, e, hees, hen⟩
    · rintro ⟨es, hes, e, hees, hen⟩
      exact ⟨e, List.mem_flatten.mpr ⟨es, hes, hees⟩, hen⟩
  · exact namesNodup_addEntries _ _ (by simp)
  · intro e he
    rcases addEntries_mem_first _ _ _ he with hmem | ⟨_, hfind⟩
    · cases hmem
    · exact hfind

theorem readDirAux_ok_entries (be : Bool) (name : String) (ls : List Layer)
    (acc : List DEntry) (foundAny allNE : Bool) (res : List DEntry)
    (h : readDirAux be name ls acc foundAny allNE = .ok res) :
    res = addEntries acc (readDirSuccesses name ls).flatten := by
  induction ls generalizing acc foundAny allNE with
  | nil =>
    cases foundAny with
    | true =>
      simp only [readDirAux, if_pos rfl] at h
      cases h
      simp [readDirSuccesses, addEntries]
    | false => cases allNE <;> simp [readDirAux] at h
  | cons l ls ih =>
    simp only [readDirAux] at h
    cases hf : readDirLayer l name with
    | ok es =>
      rw [hf] at h
      have hrec := ih (addEntries acc es) true false h
      rw [hrec]
      simp [readDirSuccesses, List.filterMap_cons, resToOption, hf, addEntries,
        List.foldl_append]
    | error e =>
      rw [hf] at h
      cases e with
      | notExist =>
        have hrec := ih acc foundAny allNE h
        rw [hrec]
        simp [readDirSuccesses, List.filterMap_cons, resToOption, hf]
      | generic =>
        cases be with
        | false => simp at h
        | true =>
          simp only [if_pos rfl] at h
          have hrec := ih acc foundAny false h
          rw [hrec]
          simp [readDirSuccesses, List.filterMap_cons, resToOption, hf]

theorem openOverlayAux_ok_dir (be : Bool) (name : String) (ls : List Layer)
    (allNE foundDir : Bool) (dirInfo : Option FInfo) (entries : List DEntry)
    (foundRead : Bool) (nm : String) (info : Option FInfo) (es : List DEntry)
    (h : openOverlayAux be name ls allNE foundDir dirInfo entries foundRead =
      .ok (.overlayDir nm info es)) :
    nm = name ∧ es = addEntries entries (overlayDirSuccesses name ls).flatten := by
  induction ls generalizing allNE foundDir dirInfo entries foundRead with
  | nil =>
    cases foundRead with
    | true =>
      simp only [openOverlayAux, if_pos rfl] at h
      obtain ⟨hnm, _, hes⟩ := OpenResult.overlayDir.inj (Except.ok.inj h)
      refine ⟨hnm.symm, ?_⟩
      rw [← hes]
      simp [overlayDirSuccesses, addEntries]
    | false => cases allNE <;> simp [openOverlayAux] at h
  | cons l ls ih =>
    simp only [openOverlayAux] at h
    cases hp : overlayProbe l name with
    | err e =>
      rw [hp] at h
      cases e with
      | notExist =>
        have hrec := ih allNE foundDir dirInfo entries foundRead h
        refine ⟨hrec.1, ?_⟩
        rw [hrec.2]
        simp [overlayDirSuccesses, List.filterMap_cons, hp]
      | generic =>
        cases be with
        | false => simp at h
        | true =>
          simp only [if_pos rfl] at h
          have hrec := ih false foundDir dirInfo entries foundRead h
          refine ⟨hrec.1, ?_⟩
          rw [hrec.2]
          simp [overlayDirSuccesses, List.filterMap_cons, hp]
    | file f =>
      rw [hp] at h
      cases foundDir with
      | true =>
        simp only [if_pos rfl] at h
        have hrec := ih false true dirInfo entries foundRead h
        refine ⟨hrec.1, ?_⟩
        rw [hrec.2]
        simp [overlayDirSuccesses, List.filterMap_cons, hp]
      | false => simp at h
    | dir info2 rd =>
      rw [hp] at h
      cases hrd : rd with
      | ok es2 =>
        rw [hrd] at h
        have hrec := ih false true _ (addEntries entries es2) true h
        refine ⟨hrec.1, ?_⟩
        rw [hrec.2]
        simp [overlayDirSuccesses, List.filterMap_cons, hp, hrd, addEntries,
          List.foldl_append]
      | error e =>
        rw [hrd] at h
        cases e with
        | notExist =>
          have hrec := ih allNE true _ entries foundRead h
          refine ⟨hrec.1, ?_⟩
          rw [hrec.2]
          simp [overlayDirSuccesses, List.filterMap_cons, hp, hrd]
        | generic =>
          cases be with
          | false => simp at h
          | true =>
            simp only [if_pos rfl] at h
            have hrec := ih false true _ entries foundRead h
            refine ⟨hrec.1, ?_⟩
            rw [hrec.2]
            simp [overlayDirSuccesses, List.filterMap_cons, hp, hrd]

/-! ### Claim C4 -/

/-- C4: the merged listing produced by `ReadDir` (under any admissible map
iteration order) and by overlay-mode `Open` of a directory contains exactly
the union of the per-layer entry names, each name exactly once, and the
entry returned for each name is the first occurrence of that name in the
concatenation of the contributing layers' lists in layer order — i.e. the
entry from the lowest-index contributing layer. -/
theorem spec_C4_merged_listing (cfs : CompositeFS) (name : String)
    (order : List DEntry → List DEntry) (hord : ∀ l, (order l).Perm l) :
    (∀ res, cfs.ReadDir order name = .ok res →
      (∀ n, (∃ e ∈ res, e.name = n) ↔
          ∃ es ∈ readDirSuccesses name cfs.filesystems, ∃ e ∈ es, e.name = n) ∧
      (res.map DEntry.name).Nodup ∧
      (∀ e ∈ res, (readDirSuccesses name cfs.filesystems).flatten.find?
        (fun x => x.name == e.name) = some e)) ∧
    (∀ nm info es, cfs.openOverlay name = .ok (.overlayDir nm info es) →
      (∀ n, (∃ e ∈ es, e.name = n) ↔
          ∃ l ∈ overlayDirSuccesses name cfs.filesystems, ∃ e ∈ l, e.name = n) ∧
      (es.map DEntry.name).Nodup ∧
      (∀ e ∈ es, (overlayDirSuccesses name cfs.filesystems).flatten.find?
        (fun x => x.name == e.name) = some e)) := by
  constructor
  · intro res h
    rw [CompositeFS.ReadDir, except_map_ok_iff] at h
    obtain ⟨r, hr, hres⟩ := h
    have hcore := readDirAux_ok_entries _ _ _ _ _ _ _ hr
    obtain ⟨hmemp, hnodup, hfirst⟩ := dedup_props (readDirSuccesses name cfs.filesystems)
    have hperm : res.Perm (addEntries [] (readDirSuccesses name cfs.filesystems).flatten) := by
      rw [← hres, ← hcore]
      exact hord r
    refine ⟨?_, ?_, ?_⟩
    · intro n
      rw [← hmemp n]
      constructor
      · rintro ⟨e, he, hen⟩
        exact ⟨e, hperm.mem_iff.mp he, hen⟩
      · rintro ⟨e, he, hen⟩
        exact ⟨e, hperm.mem_iff.mpr he, hen⟩
    · exact ((hperm.map DEntry.name).nodup_iff).mpr hnodup
    · intro e he
      exact hfirst e (hperm.mem_iff.mp he)
  · intro nm info es h
    have hcore := openOverlayAux_ok_dir _ _ _ _ _ _ _ _ _ _ _ h
    obtain ⟨hmemp, hnodup, hfirst⟩ := dedup_props (overlayDirSuccesses name cfs.filesystems)
    rw [hcore.2]
    exact ⟨hmemp, hnodup, hfirst⟩

/-- C4 witness: two layers both holding directory `views` — layer 0 lists
`home` (entry tag 0), layer 1 lists `home` (tag 10) and `about`.  Both the
`ReadDir` merge and the overlay `Open` merge produce unique names and keep
layer 0's `home` entry (the lowest-index contributor wins). -/
theorem spec_C4_merged_listing_witness :
    (([entHome0, entAbout].map DEntry.name).Nodup ∧
      (readDirSuccesses "views" [layerDir0, layerDir1]).flatten.find?
        (fun x => x.name == entHome0.name) = some entHome0) ∧
    (overlayDirSuccesses "views" [layerDir0, layerDir1]).flatten.find?
      (fun x => x.name == entHome0.name) = some entHome0 := by
  have h := spec_C4_merged_listing (NewOverlayFS [layerDir0, layerDir1]) "views"
    id (fun l => List.Perm.refl l)
  have h1 := h.1 [entHome0, entAbout] (by decide)
  have h2 := h.2 "views" (Option.some dInfoViews0) [entHome0, entAbout] (by decide)
  exact ⟨⟨h1.2.1, h1.2.2 entHome0 (by decide)⟩, h2.2.2 entHome0 (by decide)⟩

/-! ### Claim C5 -/

/-- C5 counterexample: in first-wins mode (strict `NewCompositeFS`), layer 0
successfully lists directory `views`, yet `ReadDir` still consults layer 1
(the consultation count is 2, and the result contains `about`, which only
layer 1 provides) — the claim that first-wins `ReadDir` short-circuits on
the first success is false. -/
theorem spec_C5_counterexample :
    readDirLayer layerDir0 "views" = .ok [entHome0] ∧
    (NewCompositeFS [layerDir0, layerDir1]).ReadDir id "views" =
      .ok [entHome0, entAbout] ∧
    entAbout ∈ [entHome0, entAbout] ∧ ¬ entAbout ∈ [entHome0] ∧
    readDirConsulted false "views" [layerDir0, layerDir1] = 2 := by
  decide

theorem readDirConsulted_all (be : Bool) (name : String) (ls : List Layer)
    (h : ∀ l ∈ ls, be = true ∨ readDirLayer l name ≠ .error .generic) :
    readDirConsulted be name ls = ls.length := by
  induction ls with
  | nil => rfl
  | cons l ls ih =>
    have hrest := ih (fun l' hl' => h l' (List.mem_cons_of_mem l hl'))
    simp only [readDirConsulted]
    cases hf : readDirLayer l name with
    | ok es => simp [hrest, Nat.add_comm]
    | error e =>
      cases e with
      | notExist => simp [hrest, Nat.add_comm]
      | generic =>
        rcases h l (List.mem_cons_self l ls) with hbe | hne
        · subst hbe
          simp [hrest, Nat.add_comm]
        · exact absurd hf hne

/-- C5 amended: first-wins `ReadDir` does not short-circuit on first
success — like overlay-merge, it consults every layer (short of a generic
abort under short-circuit tolerance) and merges entries across all of them;
only `Open`, `Stat` and `ReadFile` short-circuit on first success. -/
theorem spec_C5_amended_readdir_consults_all (cfs : CompositeFS) (name : String) :
    ((∀ l ∈ cfs.filesystems, readDirLayer l name ≠ .error .generic) →
      readDirConsulted cfs.bestEffort name cfs.filesystems = cfs.filesystems.length) ∧
    (cfs.bestEffort = true →
      readDirConsulted cfs.bestEffort name cfs.filesystems = cfs.filesystems.length) ∧
    (∀ order res, cfs.ReadDir order name = .ok res →
      res = order (addEntries [] (readDirSuccesses name cfs.filesystems).flatten)) := by
  refine ⟨?_, ?_, ?_⟩
  · intro h
    exact readDirConsulted_all _ _ _ (fun l hl => Or.inr (h l hl))
  · intro hbe
    exact readDirConsulted_all _ _ _ (fun l hl => Or.inl hbe)
  · intro order res h
    rw [CompositeFS.ReadDir, except_map_ok_iff] at h
    obtain ⟨r, hr, hres⟩ := h
    rw [← hres, readDirAux_ok_entries _ _ _ _ _ _ _ hr]

/-- C5 amended witness: on the concrete two-layer composite, all layers are
consulted and the merged result is the canonical first-wins dedup of both
layers' listings. -/
theorem spec_C5_amended_witness :
    readDirConsulted false "views" [layerDir0, layerDir1] = 2 ∧
    [entHome0, entAbout] =
      addEntries [] (readDirSuccesses "views" [layerDir0, layerDir1]).flatten := by
  have h := spec_C5_amended_readdir_consults_all (NewCompositeFS [layerDir0, layerDir1]) "views"
  exact ⟨h.1 (by decide), h.2.2 id [entHome0, entAbout] (by decide)⟩

/-! ### Claim C6 -/

theorem openOverlayAux_foundDir_no_file (be : Bool) (name : String) (ls : List Layer)
    (allNE : Bool) (dirInfo : Option FInfo) (entries : List DEntry) (foundRead : Bool)
    (f : File) :
    openOverlayAux be name ls allNE true dirInfo entries foundRead ≠ .ok (.file f) := by
  induction ls generalizing allNE dirInfo entries foundRead with
  | nil => cases foundRead <;> cases allNE <;> simp [openOverlayAux]
  | cons l ls ih =>
    simp only [openOverlayAux]
    cases hp : overlayProbe l name with
    | err e =>
      cases e with
      | notExist => exact ih allNE dirInfo entries foundRead
      | generic =>
        cases be with
        | false => simp
        | true => simpa using ih false dirInfo entries foundRead
    | file g => simpa using ih false dirInfo entries foundRead
    | dir info2 rd =>
      cases rd with
      | ok es2 => exact ih false _ (addEntries entries es2) true
      | error e =>
        cases e with
        | notExist => exact ih allNE _ entries foundRead
        | generic =>
          cases be with
          | false => simp
          | true => simpa using ih false _ entries foundRead

theorem openOverlayAux_file_prefix (be : Bool) (name : String) (pre : List Layer) (l : Layer)
    (post : List Layer) (f : File)
    (hpre : ∀ p ∈ pre, overlayProbe p name = .err .notExist ∨
      (be = true ∧ overlayProbe p name = .err .generic))
    (hl : overlayProbe l name = .file f) (allNE : Bool) (dirInfo : Option FInfo)
    (entries : List DEntry) (foundRead : Bool) :
    openOverlayAux be name (pre ++ l :: post) allNE false dirInfo entries foundRead =
      .ok (.file f) := by
  induction pre generalizing allNE with
  | nil =>
    simp only [List.nil_append, openOverlayAux]
    rw [hl]
    simp
  | cons p ps ih =>
    simp only [List.cons_append, openOverlayAux]
    rcases hpre p (List.mem_cons_self p ps) with hp | ⟨hbe, hp⟩
    · rw [hp]
      exact ih (fun q hq => hpre q (List.mem_cons_of_mem p hq)) allNE
    · subst hbe
      rw [hp]
      simpa using ih (fun q hq => hpre q (List.mem_cons_of_mem p hq)) false

theorem openOverlayAux_ok_file_inv (be : Bool) (name : String) (ls : List Layer)
    (allNE : Bool) (dirInfo : Option FInfo) (entries : List DEntry) (foundRead : Bool)
    (f : File)
    (h : openOverlayAux be name ls allNE false dirInfo entries foundRead = .ok (.file f)) :
    ∃ pre l post, ls = pre ++ l :: post ∧ overlayProbe l name = .file f ∧
      ∀ p ∈ pre, ∃ e, overlayProbe p name = .err e := by
  induction ls generalizing allNE dirInfo entries foundRead with
  | nil => cases foundRead <;> cases allNE <;> simp [openOverlayAux] at h
  | cons l ls ih =>
    simp only [openOverlayAux] at h
    cases hp : overlayProbe l name with
    | err e =>
      rw [hp] at h
      cases e with
      | notExist =>
        obtain ⟨pre, l', post, hsplit, hl', hpre⟩ := ih allNE dirInfo entries foundRead h
        refine ⟨l :: pre, l', post, by rw [hsplit]; rfl, hl', ?_⟩
        intro p hpm
        rcases List.mem_cons.mp hpm with hh | hh
        · subst hh
          exact ⟨.notExist, hp⟩
        · exact hpre p hh
      | generic =>
        cases be with
        | false => simp at h
        | true =>
          simp only [if_pos rfl] at h
          obtain ⟨pre, l', post, hsplit, hl', hpre⟩ := ih false dirInfo entries foundRead h
          refine ⟨l :: pre, l', post, by rw [hsplit]; rfl, hl', ?_⟩
          intro p hpm
          rcases List.mem_cons.mp hpm with hh | hh
          · subst hh
            exact ⟨.generic, hp⟩
          · exact hpre p hh
    | file g =>
      rw [hp] at h
      simp only [Bool.false_eq_true, if_false] at h
      obtain hgf := OpenResult.file.inj (Except.ok.inj h)
      subst hgf
      exact ⟨[], l, ls, rfl, hp, by simp⟩
    | dir info2 rd =>
      rw [hp] at h
      cases hrd : rd with
      | ok es2 =>
        rw [hrd] at h
        exact absurd h (openOverlayAux_foundDir_no_file _ _ _ _ _ _ _ _)
      | error e =>
        rw [hrd] at h
        cases e with
        | notExist => exact absurd h (openOverlayAux_foundDir_no_file _ _ _ _ _ _ _ _)
        | generic =>
          cases be with
          | false => simp at h
          | true =>
            simp only [if_pos rfl] at h
            exact absurd h (openOverlayAux_foundDir_no_file _ _ _ _ _ _ _ _)

/-- C6: under overlay-merge mode, `Open` returns a regular file immediately
from the first layer whose probe is a regular file when every
higher-priority layer's probe failed (not-found, or generic under
best-effort) — in particular when no higher-priority layer reported a
directory; conversely, whenever overlay `Open` returns a file, every
higher-priority layer's probe was a failure — none was a directory — so
once any higher-priority layer reports the path as a directory, no file
from a lower-priority layer is ever returned (directories mask files below
them, and the scan instead continues collecting directory entries). -/
theorem spec_C6_overlay_file_dir_masking (cfs : CompositeFS) (name : String)
    (hmd : cfs.mergeDirs = true) :
    (∀ pre l post f, cfs.filesystems = pre ++ l :: post →
      (∀ p ∈ pre, overlayProbe p name = .err .notExist ∨
        (cfs.bestEffort = true ∧ overlayProbe p name = .err .generic)) →
      overlayProbe l name = .file f →
      cfs.Open name = .ok (.file f)) ∧
    (∀ f, cfs.Open name = .ok (.file f) →
      ∃ pre l post, cfs.filesystems = pre ++ l :: post ∧ overlayProbe l name = .file f ∧
        ∀ p ∈ pre, ∃ e, overlayProbe p name = .err e) := by
  have hopen : cfs.Open name = cfs.openOverlay name := by
    rw [CompositeFS.Open, hmd]
    simp
  constructor
  · intro pre l post f hsplit hpre hl
    rw [hopen, CompositeFS.openOverlay, hsplit]
    exact openOverlayAux_file_prefix _ _ _ _ _ _ hpre hl _ _ _ _
  · intro f h
    rw [hopen, CompositeFS.openOverlay] at h
    exact openOverlayAux_ok_file_inv _ _ _ _ _ _ _ _ h

/-- C6 witness: overlay composite `[layerNE, layerA]` returns layer 1's
regular file (layer 0 fails not-found); and on `[layerDir0, layerA]` the
higher-priority directory masks layer 1's file — overlay `Open` returns the
synthetic directory, not the file. -/
theorem spec_C6_overlay_file_dir_masking_witness :
    (NewOverlayFS [layerNE, layerA]).Open "f" = .ok (.file fileA) ∧
    (NewOverlayFS [layerDir0, layerA]).Open "f" =
      .ok (.overlayDir "f" (Option.some dInfoViews0) [entHome0]) := by
  constructor
  · exact (spec_C6_overlay_file_dir_masking (NewOverlayFS [layerNE, layerA]) "f" rfl).1
      [layerNE] layerA [] fileA rfl
      (by intro p hp; rw [List.mem_singleton] at hp; subst hp; exact Or.inl rfl) rfl
  · decide

/-! ### Claim C7 -/

/-- C7 counterexample: the merged `ReadDir` listing is produced by ranging
over a Go map, whose iteration order the runtime randomises.  Two admissible
iteration orders (the identity and reversal, both permutations) yield
different entry sequences for the same composite, the same layer contents
and the same path — so "the same sequence of entries in the same order on
every run" is false. -/
theorem spec_C7_counterexample :
    (∀ l : List DEntry, (List.reverse l).Perm l) ∧
    (NewCompositeFS [layerDir0, layerDir1]).ReadDir List.reverse "views" ≠
      (NewCompositeFS [layerDir0, layerDir1]).ReadDir id "views" := by
  constructor
  · exact fun l => List.reverse_perm l
  · decide

/-- C7 amended: for a fixed composite and fixed layer contents every
operation is a pure function of its inputs, except that the `ReadDir` entry
sequence depends on the Go map iteration order; across any two admissible
iteration orders the results agree up to permutation — same success/failure,
same error classification, same entry multiset — and only the sequence
order may differ. -/
theorem spec_C7_amended_deterministic_up_to_order (cfs : CompositeFS) (name : String)
    (o1 o2 : List DEntry → List DEntry)
    (h1 : ∀ l, (o1 l).Perm l) (h2 : ∀ l, (o2 l).Perm l) :
    (∀ r1 r2, cfs.ReadDir o1 name = .ok r1 → cfs.ReadDir o2 name = .ok r2 → r1.Perm r2) ∧
    (∀ e, cfs.ReadDir o1 name = .error e ↔ cfs.ReadDir o2 name = .error e) := by
  constructor
  · intro r1 r2 hr1 hr2
    rw [CompositeFS.ReadDir, except_map_ok_iff] at hr1 hr2
    obtain ⟨a1, ha1, hb1⟩ := hr1
    obtain ⟨a2, ha2, hb2⟩ := hr2
    rw [ha1] at ha2
    obtain rfl := Except.ok.inj ha2
    rw [← hb1, ← hb2]
    exact (h1 a1).trans (h2 a1).symm
  · intro e
    rw [CompositeFS.ReadDir, CompositeFS.ReadDir, except_map_err_iff, except_map_err_iff]

/-- C7 amended witness: the reversed-order and identity-order runs on the
concrete two-layer composite return permutations of each other. -/
theorem spec_C7_amended_witness : ([entAbout, entHome0] : List DEntry).Perm [entHome0, entAbout] := by
  have h := spec_C7_amended_deterministic_up_to_order (NewCompositeFS [layerDir0, layerDir1])
    "views" List.reverse id (fun l => List.reverse_perm l) (fun l => List.Perm.refl l)
  exact h.1 [entAbout, entHome0] [entHome0, entAbout] (by decide) (by decide)

/-! ### Claim C8 -/

theorem subAux_ok_entries (be : Bool) (dir : String) (ls : List Layer)
    (acc : List Layer) (allNE : Bool) (res : List Layer)
    (h : subAux be dir ls acc allNE = .ok res) : res = acc ++ subSuccesses dir ls := by
  induction ls generalizing acc allNE with
  | nil =>
    simp only [subAux] at h
    cases hacc : acc.isEmpty with
    | true => rw [hacc] at h; simp at h
    | false =>
      rw [hacc] at h
      simp only [Bool.false_eq_true, if_false] at h
      cases h
      simp [subSuccesses]
  | cons l ls ih =>
    cases hs : l.subFS with
    | none =>
      simp only [subAux, hs] at h
      rw [ih acc allNE h]
      simp [subSuccesses, List.filterMap_cons, hs]
    | some s =>
      cases hsd : s dir with
      | ok sl =>
        simp only [subAux, hs, hsd] at h
        rw [ih (acc ++ [sl]) false h]
        simp [subSuccesses, List.filterMap_cons, hs, hsd]
      | error e =>
        cases e with
        | notExist =>
          simp only [subAux, hs, hsd] at h
          rw [ih acc allNE h]
          simp [subSuccesses, List.filterMap_cons, hs, hsd]
        | generic =>
          cases be with
          | false => simp [subAux, hs, hsd] at h
          | true =>
            simp only [subAux, hs, hsd, if_true] at h
            rw [ih acc false h]
            simp [subSuccesses, List.filterMap_cons, hs, hsd]

theorem subAux_isOk_be (dir : String) (ls : List Layer) (acc : List Layer) (allNE : Bool) :
    (∃ res, subAux true dir ls acc allNE = .ok res) ↔ acc ++ subSuccesses dir ls ≠ [] := by
  induction ls generalizing acc allNE with
  | nil =>
    simp only [subAux]
    cases hacc : acc.isEmpty with
    | true =>
      have : acc = [] := List.isEmpty_iff.mp hacc
      subst this
      simp [subSuccesses]
    | false =>
      have : acc ≠ [] := by
        intro hh
        subst hh
        simp at hacc
      simp [subSuccesses, this]
  | cons l ls ih =>
    cases hs : l.subFS with
    | none =>
      simp only [subAux, hs]
      rw [ih acc allNE]
      simp [subSuccesses, List.filterMap_cons, hs]
    | some s =>
      cases hsd : s dir with
      | ok sl =>
        simp only [subAux, hs, hsd]
        rw [ih (acc ++ [sl]) false]
        simp [subSuccesses, List.filterMap_cons, hs, hsd]
      | error e =>
        cases e with
        | notExist =>
          simp only [subAux, hs, hsd]
          rw [ih acc allNE]
          simp [subSuccesses, List.filterMap_cons, hs, hsd]
        | generic =>
          simp only [subAux, hs, hsd, if_true]
          rw [ih acc false]
          simp [subSuccesses, List.filterMap_cons, hs, hsd]

/-- C8 counterexample: on the strict composite `[layerSubGen, layerSubOk]`
the generic re-root failure of layer 0 aborts `Sub` even though layer 1
could be re-rooted (the success list is non-empty) — so "fails only if no
layer could be re-rooted" is false under short-circuit tolerance. -/
theorem spec_C8_counterexample :
    (NewCompositeFS [layerSubGen, layerSubOk]).Sub "d" = .error .generic ∧
    (subSuccesses "d" [layerSubGen, layerSubOk]).length = 1 := by
  exact ⟨rfl, rfl⟩

/-- C8 amended: `Sub(dir)` returns a new composite instance whose layer
list is exactly the re-rooted sub-filesystem of every layer that supports
re-rooting and succeeds at `dir`, in order, with capability-lacking layers
and not-found failures silently excluded, and with the original's policy
flags; under best-effort tolerance it fails iff no layer could be
re-rooted, while under short-circuit tolerance a generic re-root failure
aborts the operation even if a later layer could be re-rooted.  (The
original composite is never mutated: the source only reads `cfs` and builds
a fresh struct via `newCompositeFS`, which this pure embedding reflects.) -/
theorem spec_C8_sub (cfs : CompositeFS) (dir : String) :
    (∀ c', cfs.Sub dir = .ok c' →
      c'.filesystems = subSuccesses dir cfs.filesystems ∧
      c'.bestEffort = cfs.bestEffort ∧ c'.mergeDirs = cfs.mergeDirs) ∧
    (cfs.bestEffort = true →
      ((∃ c', cfs.Sub dir = .ok c') ↔ subSuccesses dir cfs.filesystems ≠ [])) ∧
    (∀ (be : Bool) (l : Layer) (rest acc : List Layer) (allNE : Bool),
      l.subFS = Option.none →
      subAux be dir (l :: rest) acc allNE = subAux be dir rest acc allNE) ∧
    (∀ (be : Bool) (l : Layer) (rest acc : List Layer) (allNE : Bool)
      (s : String → Res Layer), l.subFS = Option.some s → s dir = .error .notExist →
      subAux be dir (l :: rest) acc allNE = subAux be dir rest acc allNE) := by
  refine ⟨?_, ?_, ?_, ?_⟩
  · intro c' h
    rw [CompositeFS.Sub, except_map_ok_iff] at h
    obtain ⟨res, hres, hc⟩ := h
    subst hc
    refine ⟨?_, rfl, rfl⟩
    have := subAux_ok_entries _ _ _ _ _ _ hres
    simpa [newCompositeFS] using this
  · intro hbe
    rw [CompositeFS.Sub, hbe]
    constructor
    · rintro ⟨c', hc⟩
      rw [except_map_ok_iff] at hc
      obtain ⟨res, hres, _⟩ := hc
      have h1 := (subAux_isOk_be dir cfs.filesystems [] true).mp ⟨res, hres⟩
      simpa using h1
    · intro hne
      obtain ⟨res, hres⟩ := (subAux_isOk_be dir cfs.filesystems [] true).mpr (by simpa using hne)
      exact ⟨newCompositeFS true cfs.mergeDirs res, by rw [hres]; rfl⟩
  · intro be l rest acc allNE hs
    simp [subAux, hs]
  · intro be l rest acc allNE s hs hsd
    simp [subAux, hs, hsd]

/-- C8 amended witness: under best-effort tolerance on
`[layerSubGen, layerSubOk]`, `Sub` succeeds and the new composite's layer
list is exactly the one re-rooted layer, with the policy flags preserved. -/
theorem spec_C8_sub_witness :
    (([layerA] : List Layer) = subSuccesses "d" [layerSubGen, layerSubOk] ∧
      true = true ∧ false = false) ∧
    ((∃ c', (NewCompositeFSBestEffort [layerSubGen, layerSubOk]).Sub "d" = .ok c') ↔
      subSuccesses "d" [layerSubGen, layerSubOk] ≠ []) := by
  have h := spec_C8_sub (NewCompositeFSBestEffort [layerSubGen, layerSubOk]) "d"
  exact ⟨h.1 (newCompositeFS true false [layerA]) rfl, h.2.1 rfl⟩

/-! ### Claim C9 -/

/-- C9: the synthetic overlay directory handle's read cursor advances
monotonically (restartable only by re-opening); a read with a non-positive
count returns all remaining entries without error and moves the cursor to
the end, and a subsequent non-positive read returns nothing; a read with a
positive count returns at most that many entries, returns `io.EOF` with an
empty result when the cursor is already at the end, and in general signals
`io.EOF` exactly when the cursor reaches the end of the entry list. -/
theorem spec_C9_overlay_cursor (f : OverlayDirFile) (n : Int) :
    (f.pos ≤ ((f.readDirN n).2).pos) ∧
    (n ≤ 0 → f.pos < f.entries.length →
      f.readDirN n = ((f.entries.drop f.pos, false), { f with pos := f.entries.length })) ∧
    (n ≤ 0 → f.entries.length ≤ f.pos → f.readDirN n = (([], false), f)) ∧
    (0 < n → f.entries.length ≤ f.pos → f.readDirN n = (([], true), f)) ∧
    (0 < n → ((f.readDirN n).1.1.length ≤ n.toNat ∧
      (((f.readDirN n).1.2 = true) ↔ f.entries.length ≤ ((f.readDirN n).2).pos))) := by
  refine ⟨?_, ?_, ?_, ?_, ?_⟩
  · rw [OverlayDirFile.readDirN]
    split_ifs with h1 h2 h3
    · exact le_refl _
    · simp only
      omega
    · exact le_refl _
    · simp only
      omega
  · intro hn hlt
    rw [OverlayDirFile.readDirN, if_pos hn, if_neg (not_le.mpr hlt)]
  · intro hn hle
    rw [OverlayDirFile.readDirN, if_pos hn, if_pos hle]
  · intro hn hle
    rw [OverlayDirFile.readDirN, if_neg (not_le.mpr hn), if_pos hle]
  · intro hn
    rw [OverlayDirFile.readDirN, if_neg (not_le.mpr hn)]
    by_cases hle : f.entries.length ≤ f.pos
    · rw [if_pos hle]
      exact ⟨Nat.zero_le _, by simpa using hle⟩
    · rw [if_neg hle]
      constructor
      · simp only [List.length_take, List.length_drop]
        omega
      · simp only [decide_eq_true_eq]

/-- C9 witness: on the three-entry handle with the cursor at 0, a `-1` read
drains everything without error and moves the cursor to the end; a `2` read
returns at most two entries and its EOF flag tracks cursor-at-end. -/
theorem spec_C9_overlay_cursor_witness :
    odf9.readDirN (-1) =
      ((odf9.entries.drop odf9.pos, false), { odf9 with pos := odf9.entries.length }) ∧
    ((odf9.readDirN 2).1.1.length ≤ (2 : Int).toNat ∧
      (((odf9.readDirN 2).1.2 = true) ↔ odf9.entries.length ≤ ((odf9.readDirN 2).2).pos)) := by
  have ha := spec_C9_overlay_cursor odf9 (-1)
  have hb := spec_C9_overlay_cursor odf9 2
  exact ⟨ha.2.1 (by decide) (by decide), hb.2.2.2.2 (by decide)⟩

/-! ### Claim C10 -/

theorem readSlice_alloc (h : GoHeap) (vals : List Layer) :
    (h.alloc vals).1.readSlice (h.alloc vals).2 = vals := by
  have hget : (h.arrays ++ [vals]).getD h.arrays.length [] = vals := by
    rw [List.getD_eq_getElem?_getD, List.getElem?_append_right (le_refl _)]
    simp
  simp [GoHeap.alloc, GoHeap.readSlice, hget]

theorem readSlice_writeIdx_other (h : GoHeap) (s t : GoSlice) (i : Nat) (v : Layer)
    (hne : t.arr ≠ s.arr) : (h.writeIdx t i v).readSlice s = h.readSlice s := by
  simp only [GoHeap.writeIdx, GoHeap.readSlice]
  rw [List.getD_eq_getElem?_getD, List.getD_eq_getElem?_getD,
    List.getElem?_set_ne hne, ← List.getD_eq_getElem?_getD]

/-- C10: `newCompositeFS` copies the caller's slice into a freshly
allocated backing array, preserving the construction order verbatim; after
construction, writing any index of the slice the caller passed in leaves
the composite's layer list — and hence its resolution behaviour — unchanged.
The three public constructors are the three flag instances of this
function. -/
theorem spec_C10_construction_copy (be md : Bool) (h : GoHeap) (caller : GoSlice)
    (hvalid : caller.arr < h.arrays.length) :
    ((newCompositeFSAlloc be md h caller).1.readSlice
        (newCompositeFSAlloc be md h caller).2.filesystems = h.readSlice caller) ∧
    (∀ i v, ((newCompositeFSAlloc be md h caller).1.writeIdx caller i v).readSlice
        (newCompositeFSAlloc be md h caller).2.filesystems = h.readSlice caller) ∧
    (∀ i v name,
      (CompositeFSRef.deref ((newCompositeFSAlloc be md h caller).1.writeIdx caller i v)
        (newCompositeFSAlloc be md h caller).2).Open name =
      (CompositeFS.mk (h.readSlice caller) be md).Open name) := by
  have hfresh : (newCompositeFSAlloc be md h caller).1.readSlice
      (newCompositeFSAlloc be md h caller).2.filesystems = h.readSlice caller := by
    simpa [newCompositeFSAlloc] using readSlice_alloc h (h.readSlice caller)
  have hne : caller.arr ≠ (newCompositeFSAlloc be md h caller).2.filesystems.arr := by
    simp only [newCompositeFSAlloc, GoHeap.alloc]
    omega
  have hwrite : ∀ i v, ((newCompositeFSAlloc be md h caller).1.writeIdx caller i v).readSlice
      (newCompositeFSAlloc be md h caller).2.filesystems = h.readSlice caller := by
    intro i v
    rw [readSlice_writeIdx_other _ _ _ _ _ hne]
    exact hfresh
  refine ⟨hfresh, hwrite, ?_⟩
  intro i v name
  have : CompositeFSRef.deref ((newCompositeFSAlloc be md h caller).1.writeIdx caller i v)
      (newCompositeFSAlloc be md h caller).2 = CompositeFS.mk (h.readSlice caller) be md := by
    rw [CompositeFSRef.deref]
    rw [hwrite i v]
    rfl
  rw [this]

/-- C10 witness: on the concrete heap with one two-layer array, overwriting
the caller's slice after construction leaves the composite's layer list
equal to the original caller values. -/
theorem spec_C10_construction_copy_witness :
    ((newCompositeFSAlloc false false heap0 callerSlice).1.writeIdx callerSlice 0
        layerGen).readSlice
      (newCompositeFSAlloc false false heap0 callerSlice).2.filesystems =
      heap0.readSlice callerSlice :=
  (spec_C10_construction_copy false false heap0 callerSlice (by decide)).2.1 0 layerGen

end CompositeFs
